import Mathlib

/-!
Shallow embedding of the two-tier caching subsystem
(`backend/src/services/cache.rs`): the in-memory tier (a `HashMap` behind a
`RwLock`, modelled as an association list), the persistent tier (the
`cache_store` table, modelled as an association list of rows), and the
`CacheService` operations `get`, `set`, `get_or_compute`, `invalidate_pattern`,
`cleanup_expired` together with their private helpers.

Modelling conventions:
- keys are `List Char`; timestamps and TTLs are `Int` (seconds);
- the serialized payload type (`serde_json::Value`) is a type parameter `V`;
  `serde_json::to_value` / `from_value` results are passed in as
  `Except String V` / a decoder `V -> Except String T`, since serde is
  external to this code;
- fallible storage-engine calls take an `Option String` outcome parameter:
  `none` means the call succeeds against the modelled table state, `some msg`
  means the backing store fails with message `msg`.
-/

namespace TwoTierCache

abbrev Key := List Char

/-- `CacheError` from cache.rs lines 33-38. -/
inductive CacheError where
  | SerializationError (msg : String)
  | DatabaseError (msg : String)
  | NotFound
deriving DecidableEq, Repr

/-- `CacheEntry` from cache.rs lines 16-22 (memory tier). -/
structure CacheEntry (V : Type) where
  value : V
  expires_at : Int
  created_at : Int
  hit_count : Nat
deriving DecidableEq, Repr

/-- A row of the `cache_store` table: `key` is unique, `value`, `expires_at`. -/
structure DbRecord (V : Type) where
  value : V
  expires_at : Int
deriving DecidableEq, Repr

/-- The state a `CacheService` owns: the in-memory `HashMap<String, CacheEntry>`
(association list with unique keys), the `cache_store` table, and the
construction-time `max_memory_entries` capacity. -/
structure CacheState (V : Type) where
  mem : List (Key × CacheEntry V)
  db : List (Key × DbRecord V)
  max_memory_entries : Nat
deriving DecidableEq, Repr

/-- Association-list lookup (models `HashMap::get` / `SELECT ... WHERE key = $1`). -/
def lookupKV {α : Type} (k : Key) : List (Key × α) → Option α
  | [] => none
  | (k', a) :: rest => if k' = k then some a else lookupKV k rest

/-- Remove every binding of `k` (models `HashMap::remove` / `DELETE ... WHERE key = $1`). -/
def eraseKey {α : Type} (k : Key) (l : List (Key × α)) : List (Key × α) :=
  l.filter (fun p => decide (p.1 ≠ k))

/-- Insert-or-replace a binding (models `HashMap::insert` / the upsert). -/
def insertKV {α : Type} (k : Key) (a : α) (l : List (Key × α)) : List (Key × α) :=
  (k, a) :: eraseKey k l

/-- `cache.iter().min_by_key(|(_, entry)| entry.created_at)` from
cache.rs lines 339-342: the entry with the smallest `created_at`
(first such entry in iteration order). -/
def oldestEntry {V : Type} : List (Key × CacheEntry V) → Option (Key × CacheEntry V)
  | [] => none
  | p :: rest =>
    match oldestEntry rest with
    | none => some p
    | some q => if q.2.created_at < p.2.created_at then some q else some p

/-- `CacheService::store_in_memory` (cache.rs lines 334-357): if
`cache.len() >= max_memory_entries`, first evict the entry with the oldest
`created_at` (when one exists), then insert a fresh entry with
`expires_at = now + ttl`, `created_at = now`, `hit_count = 0`. -/
def store_in_memory {V : Type} (s : CacheState V) (now : Int) (k : Key) (v : V)
    (ttl : Int) : CacheState V :=
  let mem1 :=
    if s.max_memory_entries ≤ s.mem.length then
      match oldestEntry s.mem with
      | some p => eraseKey p.1 s.mem
      | none => s.mem
    else s.mem
  { s with mem := insertKV k ⟨v, now + ttl, now, 0⟩ mem1 }

/-- `CacheService::get_from_memory` (cache.rs lines 319-332): on a live entry
(`expires_at > now`) bump its hit counter and return its value; on an expired
entry remove it and miss; otherwise miss. -/
def get_from_memory {V : Type} (s : CacheState V) (now : Int) (k : Key) :
    CacheState V × Except CacheError V :=
  match lookupKV k s.mem with
  | some e =>
    if now < e.expires_at then
      ({ s with mem := insertKV k { e with hit_count := e.hit_count + 1 } s.mem },
       .ok e.value)
    else
      ({ s with mem := eraseKey k s.mem }, .error .NotFound)
  | none => (s, .error .NotFound)

/-- Outcome of `sqlx::query(...).fetch_one` for
`SELECT value FROM cache_store WHERE key = $1 AND expires_at > NOW()`:
either a row's value, a row-not-found error, or a backing-store error. -/
inductive SqlxError where
  | RowNotFound
  | Backend (msg : String)
deriving DecidableEq, Repr

/-- The raw storage-engine fetch inside `get_from_database`. -/
def rawDbFetchOne {V : Type} (db : List (Key × DbRecord V)) (now : Int) (k : Key)
    (backendFailure : Option String) : Except SqlxError V :=
  match backendFailure with
  | some msg => .error (.Backend msg)
  | none =>
    match lookupKV k db with
    | some r => if now < r.expires_at then .ok r.value else .error .RowNotFound
    | none => .error .RowNotFound

/-- `CacheService::get_from_database` (cache.rs lines 359-369): the raw fetch
with every error — row-not-found and backing-store alike — mapped to
`CacheError::NotFound` by `.map_err(|_| CacheError::NotFound)`. -/
def get_from_database {V : Type} (db : List (Key × DbRecord V)) (now : Int) (k : Key)
    (backendFailure : Option String) : Except CacheError V :=
  match rawDbFetchOne db now k backendFailure with
  | .ok v => .ok v
  | .error _ => .error .NotFound

/-- `Duration::minutes(30)` used at cache.rs line 67 when promoting a
database hit into the memory tier, in seconds. -/
def defaultPromotionTtlSeconds : Int := 1800

/-- `CacheService::get` (cache.rs lines 50-78): memory tier first; on memory
miss try the database; on a database hit store the value in memory with the
fixed 30-minute TTL and return it; on a miss in both return `NotFound`.
`dec` models `serde_json::from_value`. -/
def get {V T : Type} (dec : V → Except String T) (s : CacheState V) (now : Int)
    (k : Key) (dbReadFailure : Option String) : CacheState V × Except CacheError T :=
  match get_from_memory s now k with
  | (s1, .ok v) => (s1, (dec v).mapError CacheError.SerializationError)
  | (s1, .error _) =>
    match get_from_database s1.db now k dbReadFailure with
    | .ok v =>
      let s2 := store_in_memory s1 now k v defaultPromotionTtlSeconds
      (s2, (dec v).mapError CacheError.SerializationError)
    | .error _ => (s1, .error .NotFound)

/-- `CacheService::store_in_database` (cache.rs lines 371-387): upsert on
`key` with `expires_at = now + ttl`, or a `DatabaseError` when the backing
store fails. -/
def store_in_database {V : Type} (db : List (Key × DbRecord V)) (now : Int)
    (k : Key) (v : V) (ttl : Int) (backendFailure : Option String) :
    Except CacheError (List (Key × DbRecord V)) :=
  match backendFailure with
  | some msg => .error (.DatabaseError msg)
  | none => .ok (insertKV k ⟨v, now + ttl⟩ db)

/-- `CacheService::set` (cache.rs lines 81-102): serialize first (a failure
returns `SerializationError` before any write), then `store_in_memory`, then
`store_in_database`, whose failure is propagated by `?`. `encoded` is the
result of `serde_json::to_value(value)`. -/
def set {V : Type} (s : CacheState V) (now : Int) (k : Key)
    (encoded : Except String V) (ttl : Int) (dbWriteFailure : Option String) :
    CacheState V × Except CacheError Unit :=
  match encoded with
  | .error e => (s, .error (.SerializationError e))
  | .ok jv =>
    let s1 := store_in_memory s now k jv ttl
    match store_in_database s1.db now k jv ttl dbWriteFailure with
    | .ok db1 => ({ s1 with db := db1 }, .ok ())
    | .error err => (s1, .error err)

/-- `CacheService::get_or_compute` (cache.rs lines 105-134): `get`; on
`NotFound` run the compute function (its result is passed in as
`computeResult`) and `set` the result, propagating compute and set errors;
any other `get` error is returned as is. The final `Bool` records whether the
compute function was invoked. -/
def get_or_compute {V T : Type} (dec : V → Except String T)
    (enc : T → Except String V) (s : CacheState V) (now : Int) (k : Key)
    (ttl : Int) (computeResult : Except CacheError T)
    (dbReadFailure dbWriteFailure : Option String) :
    CacheState V × Except CacheError T × Bool :=
  match get dec s now k dbReadFailure with
  | (s1, .ok v) => (s1, .ok v, false)
  | (s1, .error CacheError.NotFound) =>
    match computeResult with
    | .error e => (s1, .error e, true)
    | .ok tv =>
      match set s1 now k (enc tv) ttl dbWriteFailure with
      | (s2, .ok _) => (s2, .ok tv, true)
      | (s2, .error e) => (s2, .error e, true)
  | (s1, .error e) => (s1, .error e, false)

/-- Does `f` hold of some suffix of the string (including the string itself
and the empty suffix)? This is the continuation of a `%` wildcard. -/
def anySuffix (f : List Char → Bool) : List Char → Bool
  | [] => f []
  | d :: s => f (d :: s) || anySuffix f s

/-- Match one arbitrary character, then continue with `k` — the `_`
wildcard. -/
def matchOne (k : List Char → Bool) : List Char → Bool
  | [] => false
  | _ :: s => k s

/-- Match the literal character `c`, then continue with `k`. -/
def matchLit (c : Char) (k : List Char → Bool) : List Char → Bool
  | [] => false
  | d :: s => decide (c = d) && k s

/-- PostgreSQL `LIKE` matching: `%` matches any sequence, `_` matches any
single character, backslash escapes the next pattern character, every other
character matches itself. Used by
`DELETE FROM cache_store WHERE key LIKE $1` with `$1 = format!("%{}%", pattern)`. -/
def likeMatch : List Char → List Char → Bool
  | [], s => s.isEmpty
  | c :: ps, s =>
    if c = '%' then anySuffix (likeMatch ps) s
    else if c = '_' then matchOne (likeMatch ps) s
    else if c = '\\' then
      match ps with
      | c2 :: ps2 => matchLit c2 (likeMatch ps2) s
      | [] => false
    else matchLit c (likeMatch ps) s

/-- Fold of `HashMap::remove` over a list of keys, as in the loops of
`invalidate_pattern` and `cleanup_expired`. -/
def removeKeys {α : Type} (l : List (Key × α)) (ks : List Key) : List (Key × α) :=
  ks.foldl (fun acc k => eraseKey k acc) l

/-- `CacheService::invalidate_pattern` (cache.rs lines 163-199): collect the
memory keys containing `pattern` as a substring and remove each, counting
them; then `DELETE FROM cache_store WHERE key LIKE '%pattern%'` (pattern
unescaped), adding `rows_affected`; a backing-store failure after the memory
removal returns `DatabaseError`. -/
def invalidate_pattern {V : Type} (s : CacheState V) (pattern : Key)
    (dbDeleteFailure : Option String) : CacheState V × Except CacheError Nat :=
  let keys_to_remove := (s.mem.map Prod.fst).filter (fun k => decide (pattern <:+: k))
  let mem1 := removeKeys s.mem keys_to_remove
  let invalidated := keys_to_remove.length
  match dbDeleteFailure with
  | some msg => ({ s with mem := mem1 }, .error (.DatabaseError msg))
  | none =>
    let dbPat := '%' :: (pattern ++ ['%'])
    let removed := s.db.filter (fun r => likeMatch dbPat r.1)
    let db1 := s.db.filter (fun r => ! likeMatch dbPat r.1)
    ({ s with mem := mem1, db := db1 }, .ok (invalidated + removed.length))

/-- `CacheService::cleanup_expired` (cache.rs lines 245-283): collect the
memory keys whose entry has `expires_at < now` and remove each, counting
them; then `DELETE FROM cache_store WHERE expires_at < NOW()`, adding
`rows_affected`. -/
def cleanup_expired {V : Type} (s : CacheState V) (now : Int)
    (dbDeleteFailure : Option String) : CacheState V × Except CacheError Nat :=
  let expired_keys :=
    (s.mem.filter (fun p => decide (p.2.expires_at < now))).map Prod.fst
  let mem1 := removeKeys s.mem expired_keys
  let cleaned := expired_keys.length
  match dbDeleteFailure with
  | some msg => ({ s with mem := mem1 }, .error (.DatabaseError msg))
  | none =>
    let removed := s.db.filter (fun r => decide (r.2.expires_at < now))
    let db1 := s.db.filter (fun r => ! decide (r.2.expires_at < now))
    ({ s with mem := mem1, db := db1 }, .ok (cleaned + removed.length))

/-!
Interleaving model for concurrent `get_or_compute` callers on one cold key.

Each caller executes the program of cache.rs lines 105-134:
`get` (one step: the memory tier and the database read), then — on a miss —
the compute function (one step), then `set` (one step: both tier writes).
The coarse step granularity only restricts the set of interleavings the real
program admits (the real code releases the memory-tier lock between the two
tiers inside `get`), so any behaviour exhibited here is a behaviour of the
code. The payload type is `Nat`, serialization is the identity
(`Except.ok`), and the backing store never fails.
-/

deriving instance DecidableEq for Except

/-- Where a `get_or_compute` caller stands in its program. -/
inductive Phase where
  | start
  | needCompute
  | haveValue (v : Nat)
  | finished (r : Except CacheError Nat)
deriving DecidableEq, Repr

/-- One concurrent `get_or_compute` caller: its control point, whether it has
invoked its compute function, and what that compute function returns. -/
structure Caller where
  phase : Phase
  hasComputed : Bool
  computeResult : Except CacheError Nat
deriving DecidableEq, Repr

/-- The key the concurrent callers contend on. -/
def herdKey : Key := ['k']

/-- One step of one caller against the shared cache state. -/
def stepCaller (sh : CacheState Nat) (c : Caller) : CacheState Nat × Caller :=
  match c.phase with
  | .start =>
    match get Except.ok sh 0 herdKey none with
    | (sh1, .ok v) => (sh1, { c with phase := .finished (.ok v) })
    | (sh1, .error CacheError.NotFound) => (sh1, { c with phase := .needCompute })
    | (sh1, .error e) => (sh1, { c with phase := .finished (.error e) })
  | .needCompute =>
    match c.computeResult with
    | .ok v => (sh, { c with phase := .haveValue v, hasComputed := true })
    | .error e => (sh, { c with phase := .finished (.error e), hasComputed := true })
  | .haveValue v =>
    match set sh 0 herdKey (.ok v) 300 none with
    | (sh1, .ok _) => (sh1, { c with phase := .finished (.ok v) })
    | (sh1, .error e) => (sh1, { c with phase := .finished (.error e) })
  | .finished _ => (sh, c)

/-- The whole system: the shared `CacheService` state and the callers. -/
structure Sys where
  shared : CacheState Nat
  callers : List Caller
deriving DecidableEq, Repr

/-- Let caller `i` take one step (out-of-range indices are no-ops). -/
def stepSys (sys : Sys) (i : Nat) : Sys :=
  match sys.callers[i]? with
  | none => sys
  | some c =>
    let r := stepCaller sys.shared c
    { shared := r.1, callers := sys.callers.set i r.2 }

/-- Run a schedule: the list of caller indices, in the order they step. -/
def runSched (sys : Sys) : List Nat → Sys
  | [] => sys
  | i :: rest => runSched (stepSys sys i) rest

/-- How many callers have invoked their compute function. -/
def computeInvocations (sys : Sys) : Nat :=
  (sys.callers.filter (fun c => c.hasComputed)).length

/-- `n` callers racing `get_or_compute` on the cold key `herdKey`, every
compute function returning `r`; both tiers start empty. -/
def coldSys (n : Nat) (r : Except CacheError Nat) : Sys :=
  { shared := { mem := [], db := [], max_memory_entries := 100 },
    callers := List.replicate n { phase := .start, hasComputed := false, computeResult := r } }

/-- A caller has finished with the value `v`. -/
def callerDoneOk (c : Caller) (v : Nat) : Bool :=
  decide (c.phase = Phase.finished (.ok v))

/-! Basic lemmas about the association-list operations. -/

theorem lookupKV_insertKV {α : Type} (k : Key) (a : α) (l : List (Key × α)) :
    lookupKV k (insertKV k a l) = some a := by
  simp [insertKV, lookupKV]

theorem store_in_memory_mem {V : Type} (s : CacheState V) (now : Int) (k : Key)
    (v : V) (ttl : Int) :
    ∃ l, (store_in_memory s now k v ttl).mem = insertKV k ⟨v, now + ttl, now, 0⟩ l := by
  unfold store_in_memory
  exact ⟨_, rfl⟩

theorem store_in_memory_db {V : Type} (s : CacheState V) (now : Int) (k : Key)
    (v : V) (ttl : Int) : (store_in_memory s now k v ttl).db = s.db := rfl

theorem store_in_memory_lookup {V : Type} (s : CacheState V) (now : Int) (k : Key)
    (v : V) (ttl : Int) :
    lookupKV k (store_in_memory s now k v ttl).mem = some ⟨v, now + ttl, now, 0⟩ := by
  obtain ⟨l, hl⟩ := store_in_memory_mem s now k v ttl
  rw [hl, lookupKV_insertKV]

/-- On a live memory entry, `get` returns the decoded value without touching
the database. -/
theorem get_memory_hit {V T : Type} (dec : V → Except String T) (s : CacheState V)
    (now : Int) (k : Key) (dbReadFailure : Option String) (e : CacheEntry V)
    (hl : lookupKV k s.mem = some e) (he : now < e.expires_at) :
    (get dec s now k dbReadFailure).2 =
      (dec e.value).mapError CacheError.SerializationError := by
  simp [get, get_from_memory, hl, he]

/-- **C4.** For every key `k`, value `v` and ttl `t > 0`: a successful
`set(k, v, t)` (serialization produced `jv` with `dec jv = ok v`, both tier
writes succeed) followed immediately by `get(k)` returns `v`. -/
theorem C4_round_trip {V T : Type} (dec : V → Except String T) (s : CacheState V)
    (now : Int) (k : Key) (v : T) (jv : V) (ttl : Int)
    (hdec : dec jv = .ok v) (httl : 0 < ttl) :
    (set s now k (.ok jv) ttl none).2 = .ok ()
  ∧ (get dec (set s now k (.ok jv) ttl none).1 now k none).2 = .ok v := by
  constructor
  · rfl
  · have hmem : lookupKV k (set s now k (.ok jv) ttl none).1.mem =
        some ⟨jv, now + ttl, now, 0⟩ := by
      show lookupKV k (store_in_memory s now k jv ttl).mem = _
      exact store_in_memory_lookup s now k jv ttl
    have hexp : now < now + ttl := by omega
    rw [get_memory_hit dec _ now k none _ hmem hexp, hdec]
    rfl

theorem C4_round_trip_witness :
    ((0:Int) < 60 ∧ Except.ok 5 = Except.ok (ε := String) 5)
  ∧ (set (⟨[], [], 10⟩ : CacheState Nat) 0 ['x'] (.ok 5) 60 none).2 = .ok ()
  ∧ (get Except.ok (set (⟨[], [], 10⟩ : CacheState Nat) 0 ['x'] (.ok 5) 60 none).1
      0 ['x'] none).2 = .ok 5 :=
  ⟨⟨by decide, rfl⟩,
   C4_round_trip Except.ok ⟨[], [], 10⟩ 0 ['x'] 5 5 60 rfl (by decide)⟩

/-- **C5.** During `set`, both tier writes are attempted; a persistent-tier
write failure surfaces as `DatabaseError` even though the memory write
already succeeded: after the failed `set` the memory tier holds the fresh
entry for `k` with the new value, while the persistent tier is unchanged (in
particular, if it did not hold `k` before, it still does not). -/
theorem C5_db_write_failure_not_rolled_back {V : Type} (s : CacheState V)
    (now : Int) (k : Key) (jv : V) (ttl : Int) (msg : String) :
    (set s now k (.ok jv) ttl (some msg)).2 = .error (.DatabaseError msg)
  ∧ lookupKV k (set s now k (.ok jv) ttl (some msg)).1.mem =
      some ⟨jv, now + ttl, now, 0⟩
  ∧ (set s now k (.ok jv) ttl (some msg)).1.db = s.db := by
  refine ⟨rfl, ?_, rfl⟩
  show lookupKV k (store_in_memory s now k jv ttl).mem = _
  exact store_in_memory_lookup s now k jv ttl

/-- **C9.** If serializing the value fails during `set`, `set` returns
`SerializationError` and the whole cache state is unchanged: the
serialization step runs before any write to either tier. -/
theorem C9_serialization_failure_leaves_state_unchanged {V : Type}
    (s : CacheState V) (now : Int) (k : Key) (e : String) (ttl : Int)
    (dbWriteFailure : Option String) :
    set s now k (.error e) ttl dbWriteFailure = (s, .error (.SerializationError e)) :=
  rfl

/-- **C6.** A backing-store error while reading the persistent tier during
`get` is downgraded to a miss: `get_from_database` maps it to `NotFound`,
`get` (on a memory miss) returns `NotFound` rather than `DatabaseError`, and
`get_or_compute` falls through to the compute path, invoking compute and
returning its value. -/
theorem C6_db_read_error_downgraded_to_miss {V T : Type}
    (dec : V → Except String T) (enc : T → Except String V) (s : CacheState V)
    (now : Int) (k : Key) (msg : String) (tv : T) (jv : V) (ttl : Int)
    (hmem : lookupKV k s.mem = none) (henc : enc tv = .ok jv) :
    get_from_database (V := V) s.db now k (some msg) = .error CacheError.NotFound
  ∧ (get dec s now k (some msg)).2 = .error CacheError.NotFound
  ∧ (get_or_compute dec enc s now k ttl (.ok tv) (some msg) none).2.2 = true
  ∧ (get_or_compute dec enc s now k ttl (.ok tv) (some msg) none).2.1 = .ok tv := by
  refine ⟨rfl, ?_, ?_, ?_⟩ <;>
    simp [get_or_compute, get, get_from_memory, hmem, get_from_database,
      rawDbFetchOne, set, henc, store_in_database]

theorem C6_db_read_error_downgraded_to_miss_witness :
    (lookupKV ['x'] ([] : List (Key × CacheEntry Nat)) = none
      ∧ Except.ok 7 = Except.ok (ε := String) 7)
  ∧ (get_from_database (V := Nat) [(['x'], ⟨9, 50⟩)] 0 ['x'] (some "down")
      = .error CacheError.NotFound
    ∧ (get Except.ok (⟨[], [(['x'], ⟨9, 50⟩)], 10⟩ : CacheState Nat) 0 ['x']
        (some "down")).2 = .error CacheError.NotFound
    ∧ (get_or_compute Except.ok Except.ok (⟨[], [(['x'], ⟨9, 50⟩)], 10⟩ : CacheState Nat)
        0 ['x'] 60 (.ok 7) (some "down") none).2.2 = true
    ∧ (get_or_compute Except.ok Except.ok (⟨[], [(['x'], ⟨9, 50⟩)], 10⟩ : CacheState Nat)
        0 ['x'] 60 (.ok 7) (some "down") none).2.1 = .ok 7) :=
  ⟨⟨rfl, rfl⟩,
   C6_db_read_error_downgraded_to_miss Except.ok Except.ok ⟨[], [(['x'], ⟨9, 50⟩)], 10⟩
     0 ['x'] "down" 7 7 60 rfl rfl⟩

/-- **C7.** On a memory miss with a live persistent-tier hit, `get` promotes
the value into the memory tier with the fixed 30-minute default TTL — the
promoted entry's `expires_at` is `now + defaultPromotionTtlSeconds`,
independent of the record's original `expires_at` — and returns the (decoded)
value. -/
theorem C7_promotion_resets_ttl {V T : Type} (dec : V → Except String T)
    (s : CacheState V) (now : Int) (k : Key) (r : DbRecord V)
    (hmem : lookupKV k s.mem = none) (hdb : lookupKV k s.db = some r)
    (hlive : now < r.expires_at) :
    lookupKV k (get dec s now k none).1.mem =
      some ⟨r.value, now + defaultPromotionTtlSeconds, now, 0⟩
  ∧ (get dec s now k none).2 =
      (dec r.value).mapError CacheError.SerializationError := by
  have hfetch : get_from_database (V := V) s.db now k none = .ok r.value := by
    simp [get_from_database, rawDbFetchOne, hdb, hlive]
  have hget : get dec s now k none =
      (store_in_memory s now k r.value defaultPromotionTtlSeconds,
       (dec r.value).mapError CacheError.SerializationError) := by
    simp [get, get_from_memory, hmem, hfetch]
  rw [hget]
  exact ⟨store_in_memory_lookup s now k r.value defaultPromotionTtlSeconds, rfl⟩

theorem C7_promotion_resets_ttl_witness :
    (lookupKV ['x'] ([] : List (Key × CacheEntry Nat)) = none
      ∧ lookupKV ['x'] [(['x'], (⟨9, 50⟩ : DbRecord Nat))] = some ⟨9, 50⟩
      ∧ (0:Int) < 50)
  ∧ (lookupKV ['x'] ((get Except.ok (⟨[], [(['x'], ⟨9, 50⟩)], 10⟩ : CacheState Nat)
        0 ['x'] none).1.mem) = some ⟨9, 0 + defaultPromotionTtlSeconds, 0, 0⟩
    ∧ (get Except.ok (⟨[], [(['x'], ⟨9, 50⟩)], 10⟩ : CacheState Nat) 0 ['x'] none).2 =
        (Except.ok 9).mapError CacheError.SerializationError) :=
  ⟨⟨rfl, by decide, by decide⟩,
   C7_promotion_resets_ttl Except.ok ⟨[], [(['x'], ⟨9, 50⟩)], 10⟩ 0 ['x'] ⟨9, 50⟩
     rfl rfl (by decide)⟩

/-- **C1.** `get_or_compute` has no per-key in-flight-computation sharing:
in the interleaving where both callers' `get`s (each observing a cold-key
miss) happen before either caller's `set`, the compute function is invoked
twice — once per caller — even though both callers complete successfully
with the value 42; under the serial schedule it is invoked once. This
refutes the compute-once guarantee (`compute` invoked exactly once under
concurrent calls for a cold key). -/
theorem C1_no_compute_once_guarantee :
    computeInvocations (runSched (coldSys 2 (.ok 42)) [0, 1, 0, 0, 1, 1]) = 2
  ∧ (runSched (coldSys 2 (.ok 42)) [0, 1, 0, 0, 1, 1]).callers.all
      (fun c => callerDoneOk c 42) = true
  ∧ computeInvocations (runSched (coldSys 2 (.ok 42)) [0, 0, 0, 1]) = 1
  ∧ (runSched (coldSys 2 (.ok 42)) [0, 0, 0, 1]).callers.all
      (fun c => callerDoneOk c 42) = true := by
  refine ⟨?_, ?_, ?_, ?_⟩ <;> rfl

/-! Lemmas about `oldestEntry` and list lengths, for the eviction claim. -/

theorem oldestEntry_isSome {V : Type} :
    ∀ l : List (Key × CacheEntry V), l ≠ [] → ∃ p, oldestEntry l = some p
  | [], h => absurd rfl h
  | q :: rest, _ => by
    unfold oldestEntry
    cases hr : oldestEntry rest with
    | none => exact ⟨q, rfl⟩
    | some q' =>
      by_cases hlt : q'.2.created_at < q.2.created_at
      · exact ⟨q', by simp [hlt]⟩
      · exact ⟨q, by simp [hlt]⟩

theorem oldestEntry_mem {V : Type} :
    ∀ (l : List (Key × CacheEntry V)) (p : Key × CacheEntry V),
      oldestEntry l = some p → p ∈ l
  | [], p, h => by simp [oldestEntry] at h
  | q :: rest, p, h => by
    unfold oldestEntry at h
    cases hr : oldestEntry rest with
    | none =>
      rw [hr] at h
      injection h with h
      subst h
      exact List.mem_cons_self q rest
    | some q' =>
      rw [hr] at h
      dsimp only at h
      by_cases hlt : q'.2.created_at < q.2.created_at
      · rw [if_pos hlt] at h
        injection h with h
        subst h
        exact List.mem_cons_of_mem q (oldestEntry_mem rest q' hr)
      · rw [if_neg hlt] at h
        injection h with h
        subst h
        exact List.mem_cons_self q rest

theorem oldestEntry_min {V : Type} :
    ∀ (l : List (Key × CacheEntry V)) (p : Key × CacheEntry V),
      oldestEntry l = some p → ∀ q ∈ l, p.2.created_at ≤ q.2.created_at
  | [], p, h => by simp [oldestEntry] at h
  | q :: rest, p, h => by
    unfold oldestEntry at h
    cases hr : oldestEntry rest with
    | none =>
      rw [hr] at h
      injection h with h
      subst h
      have hrest : rest = [] := by
        cases rest with
        | nil => rfl
        | cons a t =>
          obtain ⟨w, hw⟩ := oldestEntry_isSome (a :: t) (by simp)
          rw [hw] at hr
          cases hr
      subst hrest
      intro x hx
      rw [List.mem_singleton] at hx
      subst hx
      exact le_refl _
    | some q' =>
      rw [hr] at h
      dsimp only at h
      have hmin := oldestEntry_min rest q' hr
      by_cases hlt : q'.2.created_at < q.2.created_at
      · rw [if_pos hlt] at h
        injection h with h
        subst h
        intro x hx
        rcases List.mem_cons.mp hx with hx | hx
        · subst hx; exact le_of_lt hlt
        · exact hmin x hx
      · rw [if_neg hlt] at h
        injection h with h
        subst h
        intro x hx
        rcases List.mem_cons.mp hx with hx | hx
        · subst hx; exact le_refl _
        · exact le_trans (not_lt.mp hlt) (hmin x hx)

theorem eraseKey_length_le {α : Type} (k : Key) (l : List (Key × α)) :
    (eraseKey k l).length ≤ l.length :=
  List.length_filter_le _ l

theorem eraseKey_length_lt {α : Type} (p : Key × α) (l : List (Key × α))
    (hp : p ∈ l) : (eraseKey p.1 l).length < l.length := by
  apply List.length_filter_lt_length_iff_exists.mpr
  exact ⟨p, hp, by simp⟩

theorem insertKV_length {α : Type} (k : Key) (a : α) (l : List (Key × α)) :
    (insertKV k a l).length = (eraseKey k l).length + 1 := by
  simp [insertKV]

/-- For a capacity of at least 1, `store_in_memory` preserves the capacity
bound on the resident entry count. -/
theorem store_in_memory_capacity {V : Type} (s : CacheState V) (now : Int)
    (k : Key) (v : V) (ttl : Int) (hC : 1 ≤ s.max_memory_entries)
    (hlen : s.mem.length ≤ s.max_memory_entries) :
    (store_in_memory s now k v ttl).mem.length ≤ s.max_memory_entries := by
  unfold store_in_memory
  by_cases hfull : s.max_memory_entries ≤ s.mem.length
  · have hne : s.mem ≠ [] := by
      intro h
      rw [h] at hfull
      simp at hfull
      omega
    obtain ⟨p, hp⟩ := oldestEntry_isSome s.mem hne
    have h1 : (eraseKey p.1 s.mem).length < s.mem.length :=
      eraseKey_length_lt p s.mem (oldestEntry_mem s.mem p hp)
    have h2 : (eraseKey k (eraseKey p.1 s.mem)).length ≤ (eraseKey p.1 s.mem).length :=
      eraseKey_length_le k _
    simp only [if_pos hfull, hp, insertKV_length]
    omega
  · have h2 : (eraseKey k s.mem).length ≤ s.mem.length := eraseKey_length_le k _
    simp only [if_neg hfull, insertKV_length]
    omega

/-- Even for a capacity of 0 the resident entry count stays below
`max capacity 1` — capacity 0 admits one resident entry. -/
theorem store_in_memory_length_bound {V : Type} (s : CacheState V) (now : Int)
    (k : Key) (v : V) (ttl : Int)
    (hlen : s.mem.length ≤ max s.max_memory_entries 1) :
    (store_in_memory s now k v ttl).mem.length ≤ max s.max_memory_entries 1 := by
  by_cases hC : 1 ≤ s.max_memory_entries
  · rw [max_eq_left hC] at hlen ⊢
    exact store_in_memory_capacity s now k v ttl hC hlen
  · have hC0 : s.max_memory_entries = 0 := by omega
    have hmax : max s.max_memory_entries 1 = 1 := by
      rw [hC0]
      exact max_eq_right (by omega)
    rw [hmax] at hlen ⊢
    have hfull : s.max_memory_entries ≤ s.mem.length := by
      rw [hC0]; exact Nat.zero_le _
    unfold store_in_memory
    rcases eq_or_ne s.mem [] with hnil | hne
    · simp only [if_pos hfull, hnil, oldestEntry, insertKV_length]
      simp [eraseKey]
    · obtain ⟨p, hp⟩ := oldestEntry_isSome s.mem hne
      have h1 : (eraseKey p.1 s.mem).length < s.mem.length :=
        eraseKey_length_lt p s.mem (oldestEntry_mem s.mem p hp)
      have h2 : (eraseKey k (eraseKey p.1 s.mem)).length ≤ (eraseKey p.1 s.mem).length :=
        eraseKey_length_le k _
      simp only [if_pos hfull, hp, insertKV_length]
      omega

/-- Capacity 2, both tiers empty. -/
def evictDemo0 : CacheState Nat := { mem := [], db := [], max_memory_entries := 2 }

/-- Insert key `a` at time 0. -/
def evictDemo1 : CacheState Nat := store_in_memory evictDemo0 0 ['a'] 10 100

/-- Insert key `b` at time 1: the tier is now at capacity. -/
def evictDemo2 : CacheState Nat := store_in_memory evictDemo1 1 ['b'] 20 100

/-- Insert the already-present key `b` again at time 2. -/
def evictDemo3 : CacheState Nat := store_in_memory evictDemo2 2 ['b'] 30 100

/-- **C2, counterexample.** With capacity 2 and resident keys `a` and `b`
(at capacity), inserting the *already-present* key `b` again evicts the other
key `a`: `store_in_memory` runs its eviction whenever `len >= capacity`,
without checking whether the key is already resident. This refutes the part
of the claim stating that an insert for an already-present key does not
evict any other entry. -/
theorem C2_insert_present_key_evicts :
    evictDemo2.mem.length = 2
  ∧ evictDemo2.max_memory_entries = 2
  ∧ (lookupKV ['a'] evictDemo2.mem).isSome = true
  ∧ (lookupKV ['b'] evictDemo2.mem).isSome = true
  ∧ lookupKV ['a'] evictDemo3.mem = none
  ∧ (lookupKV ['b'] evictDemo3.mem).isSome = true := by
  refine ⟨rfl, rfl, rfl, rfl, rfl, rfl⟩

/-- **C2, amended.** For any capacity `C >= 1` the resident entry count never
exceeds `C` (for `C = 0` the bound is 1, not 0); whenever an insert finds the
count at or above `C` — whether or not the key is already present — the entry
with the oldest `created_at` among current residents is evicted before
inserting; an insert that finds the count strictly below `C` evicts
nothing. -/
theorem C2_capacity_amended {V : Type} (s : CacheState V) (now : Int) (k : Key)
    (v : V) (ttl : Int) :
    (s.mem.length ≤ max s.max_memory_entries 1 →
      (store_in_memory s now k v ttl).mem.length ≤ max s.max_memory_entries 1)
  ∧ (1 ≤ s.max_memory_entries → s.mem.length ≤ s.max_memory_entries →
      (store_in_memory s now k v ttl).mem.length ≤ s.max_memory_entries)
  ∧ (s.max_memory_entries ≤ s.mem.length → s.mem ≠ [] →
      ∃ p ∈ s.mem, (∀ q ∈ s.mem, p.2.created_at ≤ q.2.created_at) ∧
        (store_in_memory s now k v ttl).mem =
          insertKV k ⟨v, now + ttl, now, 0⟩ (eraseKey p.1 s.mem))
  ∧ (s.mem.length < s.max_memory_entries →
      (store_in_memory s now k v ttl).mem = insertKV k ⟨v, now + ttl, now, 0⟩ s.mem) := by
  refine ⟨store_in_memory_length_bound s now k v ttl,
    store_in_memory_capacity s now k v ttl, ?_, ?_⟩
  · intro hfull hne
    obtain ⟨p, hp⟩ := oldestEntry_isSome s.mem hne
    refine ⟨p, oldestEntry_mem s.mem p hp, oldestEntry_min s.mem p hp, ?_⟩
    unfold store_in_memory
    simp only [if_pos hfull, hp]
  · intro hlt
    unfold store_in_memory
    simp only [if_neg (not_le.mpr hlt)]

theorem C2_capacity_amended_witness :
    (evictDemo2.mem.length ≤ max evictDemo2.max_memory_entries 1
      ∧ 1 ≤ evictDemo2.max_memory_entries
      ∧ evictDemo2.mem.length ≤ evictDemo2.max_memory_entries
      ∧ evictDemo2.max_memory_entries ≤ evictDemo2.mem.length
      ∧ evictDemo2.mem ≠ [])
  ∧ (store_in_memory evictDemo2 2 ['b'] 30 100).mem.length ≤ max evictDemo2.max_memory_entries 1
  ∧ (store_in_memory evictDemo2 2 ['b'] 30 100).mem.length ≤ evictDemo2.max_memory_entries
  ∧ ∃ p ∈ evictDemo2.mem, (∀ q ∈ evictDemo2.mem, p.2.created_at ≤ q.2.created_at) ∧
      (store_in_memory evictDemo2 2 ['b'] 30 100).mem =
        insertKV ['b'] ⟨30, 2 + 100, 2, 0⟩ (eraseKey p.1 evictDemo2.mem) :=
  ⟨⟨by decide, by decide, by decide, by decide, by decide⟩,
   (C2_capacity_amended evictDemo2 2 ['b'] 30 100).1 (by decide),
   (C2_capacity_amended evictDemo2 2 ['b'] 30 100).2.1 (by decide) (by decide),
   (C2_capacity_amended evictDemo2 2 ['b'] 30 100).2.2.1 (by decide) (by decide)⟩

/-! Characterisation of `likeMatch` on wildcard-wrapped patterns, and of the
key-removal loops, for the invalidation and cleanup claims. -/

set_option maxHeartbeats 1000000 in
theorem likeMatch_cons (c : Char) (ps s : List Char) :
    likeMatch (c :: ps) s =
      (if c = '%' then anySuffix (likeMatch ps) s
      else if c = '_' then matchOne (likeMatch ps) s
      else if c = '\\' then
        (match ps with
        | c2 :: ps2 => matchLit c2 (likeMatch ps2) s
        | [] => false)
      else matchLit c (likeMatch ps) s) := by
  rw [likeMatch.eq_def]

theorem likeMatch_percent (ps s : List Char) :
    likeMatch ('%' :: ps) s = anySuffix (likeMatch ps) s := by
  rw [likeMatch_cons]
  simp

theorem likeMatch_lit (c : Char) (ps s : List Char)
    (h1 : c ≠ '%') (h2 : c ≠ '_') (h3 : c ≠ '\\') :
    likeMatch (c :: ps) s = matchLit c (likeMatch ps) s := by
  rw [likeMatch_cons]
  simp [h1, h2, h3]

theorem anySuffix_iff (f : List Char → Bool) :
    ∀ s : List Char, (anySuffix f s = true ↔ ∃ s₂, s₂ <:+ s ∧ f s₂ = true)
  | [] => by
    rw [show anySuffix f [] = f [] from rfl]
    constructor
    · intro h
      exact ⟨[], List.suffix_rfl, h⟩
    · rintro ⟨s₂, hs, h⟩
      rwa [List.suffix_nil.mp hs] at h
  | d :: s => by
    rw [show anySuffix f (d :: s) = (f (d :: s) || anySuffix f s) from rfl]
    constructor
    · intro h
      rcases Bool.or_eq_true_iff.mp h with h1 | h2
      · exact ⟨d :: s, List.suffix_rfl, h1⟩
      · obtain ⟨s₂, hs, hm⟩ := (anySuffix_iff f s).mp h2
        exact ⟨s₂, hs.trans (List.suffix_cons d s), hm⟩
    · rintro ⟨s₂, hs, hm⟩
      rcases List.suffix_cons_iff.mp hs with h | h
      · subst h
        simp [hm]
      · simp [(anySuffix_iff f s).mpr ⟨s₂, h, hm⟩]

theorem likeMatch_percent_iff (ps : List Char) (s : List Char) :
    likeMatch ('%' :: ps) s = true ↔ ∃ s₂, s₂ <:+ s ∧ likeMatch ps s₂ = true := by
  rw [likeMatch_percent]
  exact anySuffix_iff (likeMatch ps) s

theorem likeMatch_percent_nil (s : List Char) : likeMatch ['%'] s = true := by
  rw [likeMatch_percent_iff]
  exact ⟨[], List.nil_suffix, rfl⟩

theorem likeMatch_literal_append_iff :
    ∀ (p : List Char), (∀ c ∈ p, c ≠ '%' ∧ c ≠ '_' ∧ c ≠ '\\') →
      ∀ (ps s : List Char),
        (likeMatch (p ++ ps) s = true ↔ ∃ s₂, s = p ++ s₂ ∧ likeMatch ps s₂ = true)
  | [], _, ps, s => by simp
  | c :: p', hp, ps, s => by
    have hc := hp c (List.mem_cons_self c p')
    have IH := likeMatch_literal_append_iff p'
      (fun x hx => hp x (List.mem_cons_of_mem c hx)) ps
    rw [List.cons_append, likeMatch_lit c (p' ++ ps) s hc.1 hc.2.1 hc.2.2]
    cases s with
    | nil =>
      rw [show matchLit c (likeMatch (p' ++ ps)) [] = false from rfl]
      constructor
      · intro h
        cases h
      · rintro ⟨s₂, hs, -⟩
        cases hs
    | cons d s' =>
      rw [show matchLit c (likeMatch (p' ++ ps)) (d :: s') =
          (decide (c = d) && likeMatch (p' ++ ps) s') from rfl]
      constructor
      · intro h
        rw [Bool.and_eq_true] at h
        obtain ⟨hcd, hrest⟩ := h
        have hcd' : c = d := of_decide_eq_true hcd
        obtain ⟨s₂, rfl, hm⟩ := (IH s').mp hrest
        exact ⟨s₂, by simp [hcd'], hm⟩
      · rintro ⟨s₂, hs, hm⟩
        rw [List.cons_append] at hs
        injection hs with h1 h2
        simp [h1, (IH s').mpr ⟨s₂, h2, hm⟩]

/-- `LIKE '%p%'` with a metacharacter-free `p` matches exactly the strings
containing `p` as a substring. -/
theorem likeMatch_contains_iff (p : List Char)
    (hp : ∀ c ∈ p, c ≠ '%' ∧ c ≠ '_' ∧ c ≠ '\\') (s : List Char) :
    likeMatch ('%' :: (p ++ ['%'])) s = true ↔ p <:+: s := by
  rw [likeMatch_percent_iff (p ++ ['%']) s]
  constructor
  · rintro ⟨s₂, hsuf, hm⟩
    obtain ⟨s₃, rfl, -⟩ := (likeMatch_literal_append_iff p hp ['%'] s₂).mp hm
    exact List.infix_iff_prefix_suffix.mpr ⟨p ++ s₃, ⟨s₃, rfl⟩, hsuf⟩
  · intro h
    obtain ⟨t, hpre, hsuf⟩ := List.infix_iff_prefix_suffix.mp h
    obtain ⟨s₃, rfl⟩ := hpre
    exact ⟨p ++ s₃, hsuf,
      (likeMatch_literal_append_iff p hp ['%'] _).mpr ⟨s₃, rfl, likeMatch_percent_nil s₃⟩⟩

theorem likeMatch_eq_decide_contains (p : List Char)
    (hp : ∀ c ∈ p, c ≠ '%' ∧ c ≠ '_' ∧ c ≠ '\\') (x : List Char) :
    likeMatch ('%' :: (p ++ ['%'])) x = decide (p <:+: x) := by
  by_cases h : p <:+: x
  · rw [(likeMatch_contains_iff p hp x).mpr h, decide_eq_true h]
  · have hfalse : ¬ likeMatch ('%' :: (p ++ ['%'])) x = true :=
      fun hl => h ((likeMatch_contains_iff p hp x).mp hl)
    rw [Bool.not_eq_true] at hfalse
    rw [hfalse, decide_eq_false h]

theorem removeKeys_eq_filter {α : Type} :
    ∀ (ks : List Key) (l : List (Key × α)),
      removeKeys l ks = l.filter (fun p => ! decide (p.1 ∈ ks))
  | [], l => by
    simp only [removeKeys, List.foldl_nil]
    have h : (fun p : Key × α => ! decide (p.1 ∈ ([] : List Key))) = fun _ => true := by
      funext x
      simp
    rw [h, List.filter_true]
  | k :: ks, l => by
    rw [show removeKeys l (k :: ks) = removeKeys (eraseKey k l) ks from rfl,
      removeKeys_eq_filter ks (eraseKey k l), eraseKey, List.filter_filter]
    apply List.filter_congr
    intro x _
    by_cases h1 : x.1 = k <;> by_cases h2 : x.1 ∈ ks <;> simp [h1, h2]

/-- Membership of a key in the collected key list, for a key-based filter. -/
theorem mem_keys_filter {α : Type} (g : Key → Bool) (l : List (Key × α))
    (q : Key × α) (hq : q ∈ l) :
    decide (q.1 ∈ (l.map Prod.fst).filter g) = g q.1 := by
  have hmem : q.1 ∈ l.map Prod.fst := List.mem_map_of_mem Prod.fst hq
  have hiff : q.1 ∈ (l.map Prod.fst).filter g ↔ g q.1 = true := by
    rw [List.mem_filter]
    exact ⟨fun h => h.2, fun h => ⟨hmem, h⟩⟩
  by_cases h : g q.1 = true <;> simp [h, hiff]

/-- Membership of a key in the collected key list, for an entry-based filter;
needs unique keys. -/
theorem mem_keys_filter_of_nodup {α : Type} (g : Key × α → Bool)
    (l : List (Key × α)) (hnd : (l.map Prod.fst).Nodup) (q : Key × α)
    (hq : q ∈ l) : decide (q.1 ∈ (l.filter g).map Prod.fst) = g q := by
  have hiff : q.1 ∈ (l.filter g).map Prod.fst ↔ g q = true := by
    constructor
    · intro h
      obtain ⟨r, hr, hrq⟩ := List.mem_map.mp h
      have hrl : r ∈ l := (List.mem_filter.mp hr).1
      have heq : r = q := List.inj_on_of_nodup_map hnd hrl hq hrq
      rw [← heq]
      exact (List.mem_filter.mp hr).2
    · intro h
      exact List.mem_map_of_mem Prod.fst (List.mem_filter.mpr ⟨hq, h⟩)
  by_cases h : g q = true <;> simp [h, hiff]

theorem length_filter_map_fst {α : Type} (g : Key → Bool) (l : List (Key × α)) :
    ((l.map Prod.fst).filter g).length = (l.filter (fun q => g q.1)).length := by
  induction l with
  | nil => rfl
  | cons a t ih => by_cases h : g a.1 <;> simp [h, ih]

/-- What `invalidate_pattern` does, for a pattern free of `LIKE`
metacharacters: both tiers are filtered by substring containment and the
count is the total number of (tier, key) pairs removed. -/
theorem invalidate_pattern_eq {V : Type} (s : CacheState V) (p : Key)
    (hp : ∀ c ∈ p, c ≠ '%' ∧ c ≠ '_' ∧ c ≠ '\\') :
    invalidate_pattern s p none =
      ({ s with mem := s.mem.filter (fun q => ! decide (p <:+: q.1)),
                db := s.db.filter (fun q => ! decide (p <:+: q.1)) },
       .ok ((s.mem.filter (fun q => decide (p <:+: q.1))).length
          + (s.db.filter (fun q => decide (p <:+: q.1))).length)) := by
  have hmem : removeKeys s.mem ((s.mem.map Prod.fst).filter (fun k => decide (p <:+: k)))
      = s.mem.filter (fun q => ! decide (p <:+: q.1)) := by
    rw [removeKeys_eq_filter]
    apply List.filter_congr
    intro x hx
    rw [mem_keys_filter (fun k => decide (p <:+: k)) s.mem x hx]
  have hdb : ∀ x : Key × DbRecord V,
      likeMatch ('%' :: (p ++ ['%'])) x.1 = decide (p <:+: x.1) :=
    fun x => likeMatch_eq_decide_contains p hp x.1
  have hdbneg : s.db.filter (fun r => ! likeMatch ('%' :: (p ++ ['%'])) r.1)
      = s.db.filter (fun q => ! decide (p <:+: q.1)) :=
    List.filter_congr (fun x _ => by rw [hdb x])
  have hdbpos : s.db.filter (fun r => likeMatch ('%' :: (p ++ ['%'])) r.1)
      = s.db.filter (fun q => decide (p <:+: q.1)) :=
    List.filter_congr (fun x _ => by rw [hdb x])
  have hcount : ((s.mem.map Prod.fst).filter (fun k => decide (p <:+: k))).length
      = (s.mem.filter (fun q => decide (p <:+: q.1))).length :=
    length_filter_map_fst (fun k => decide (p <:+: k)) s.mem
  unfold invalidate_pattern
  dsimp only
  rw [hmem, hdbneg, hdbpos, hcount]

/-- Pattern `_` matched via unescaped `LIKE '%_%'`: the single `_` acts as a
one-character wildcard, so the row `ab` matches. Memory tier empty. -/
def underscoreDemo : CacheState Nat :=
  { mem := [], db := [(['a', 'b'], ⟨1, 100⟩)], max_memory_entries := 10 }

/-- **C3, counterexample.** `invalidate_pattern("_")` deletes the
persistent-tier row with key `ab` and reports 1 removal, even though `ab`
does not contain `_` as a substring: the pattern is interpolated into
`LIKE '%_%'` with no escaping, so `_` matches any single character. This
refutes "removes exactly the set of keys whose string contains p as a
substring". -/
theorem C3_unescaped_wildcard :
    ¬ (['_'] <:+: ['a', 'b'])
  ∧ (invalidate_pattern underscoreDemo ['_'] none).1.db = []
  ∧ (invalidate_pattern underscoreDemo ['_'] none).2 = .ok 1 := by
  refine ⟨by decide, rfl, rfl⟩

/-- **C3, amended.** For a pattern `p` containing no storage-engine wildcard
metacharacter (`%`, `_`, `\`), `invalidate_pattern(p)` removes exactly the
keys containing `p` as a substring from both tiers and returns the number of
(tier, key) pairs removed; for patterns containing such metacharacters the
persistent-tier deletion may match more broadly (unescaped `LIKE`). -/
theorem C3_pattern_invalidation_amended {V : Type} (s : CacheState V) (p : Key)
    (hp : ∀ c ∈ p, c ≠ '%' ∧ c ≠ '_' ∧ c ≠ '\\') :
    (invalidate_pattern s p none).1.mem
      = s.mem.filter (fun q => ! decide (p <:+: q.1))
  ∧ (invalidate_pattern s p none).1.db
      = s.db.filter (fun q => ! decide (p <:+: q.1))
  ∧ (invalidate_pattern s p none).2
      = .ok ((s.mem.filter (fun q => decide (p <:+: q.1))).length
           + (s.db.filter (fun q => decide (p <:+: q.1))).length) := by
  rw [invalidate_pattern_eq s p hp]
  exact ⟨rfl, rfl, rfl⟩

/-- Two memory entries and two persistent rows; exactly one of each contains
the pattern `a`. -/
def patternDemo : CacheState Nat :=
  { mem := [(['a', 'b'], ⟨1, 100, 0, 0⟩), (['z'], ⟨2, 100, 0, 0⟩)],
    db := [(['x', 'a'], ⟨3, 100⟩), (['y'], ⟨4, 100⟩)],
    max_memory_entries := 10 }

theorem C3_pattern_invalidation_amended_witness :
    (∀ c ∈ ['a'], c ≠ '%' ∧ c ≠ '_' ∧ c ≠ '\\')
  ∧ ((invalidate_pattern patternDemo ['a'] none).1.mem
      = patternDemo.mem.filter (fun q => ! decide (['a'] <:+: q.1))
    ∧ (invalidate_pattern patternDemo ['a'] none).1.db
      = patternDemo.db.filter (fun q => ! decide (['a'] <:+: q.1))
    ∧ (invalidate_pattern patternDemo ['a'] none).2
      = .ok ((patternDemo.mem.filter (fun q => decide (['a'] <:+: q.1))).length
           + (patternDemo.db.filter (fun q => decide (['a'] <:+: q.1))).length)) :=
  ⟨by decide, C3_pattern_invalidation_amended patternDemo ['a'] (by decide)⟩

/-- **C10.** `invalidate_pattern` with the empty pattern removes every entry
from the memory tier and every record from the persistent tier (every key
contains the empty substring; `LIKE '%%'` matches every row) and returns the
total entry count across both tiers. -/
theorem C10_empty_pattern_clears_both_tiers {V : Type} (s : CacheState V) :
    (invalidate_pattern s [] none).1.mem = []
  ∧ (invalidate_pattern s [] none).1.db = []
  ∧ (invalidate_pattern s [] none).2 = .ok (s.mem.length + s.db.length) := by
  have hnil : ∀ x : Key, ([] : Key) <:+: x := fun x => ⟨[], x, by simp⟩
  rw [invalidate_pattern_eq s [] (by intro c hc; cases hc)]
  refine ⟨?_, ?_, ?_⟩ <;> simp [hnil]

/-- One memory entry and one persistent row, each with `expires_at = 0`:
logically expired at `now = 0` (the spec treats `expires_at <= now` as
expired) but not swept. -/
def boundaryDemo : CacheState Nat :=
  { mem := [(['k'], ⟨7, 0, -5, 0⟩)], db := [(['d'], ⟨1, 0⟩)],
    max_memory_entries := 10 }

/-- **C8, counterexample.** Both tiers hold only entries with
`expires_at <= now` (equal to `now = 0`), yet `cleanup_expired` removes
nothing and returns 0: the sweep conditions are the strict
`expires_at < now` / `expires_at < NOW()`, so an entry expiring exactly at
`now` is not removed. This refutes "removes all entries with
expires_at <= now". -/
theorem C8_boundary_entry_survives_sweep :
    (∀ q ∈ boundaryDemo.mem, q.2.expires_at ≤ 0)
  ∧ (∀ q ∈ boundaryDemo.db, q.2.expires_at ≤ 0)
  ∧ cleanup_expired boundaryDemo 0 none = (boundaryDemo, .ok 0) := by
  refine ⟨by decide, by decide, by decide⟩

/-- **C8, amended.** `cleanup_expired` sweeps both tiers with the strict
condition `expires_at < now`: it removes exactly the memory entries and
persistent records with `expires_at` strictly before `now` and returns the
total number removed across both tiers (stated for a memory tier with unique
keys, which every reachable state has). -/
theorem C8_cleanup_strict_amended {V : Type} (s : CacheState V) (now : Int)
    (hnd : (s.mem.map Prod.fst).Nodup) :
    (cleanup_expired s now none).1.mem
      = s.mem.filter (fun q => ! decide (q.2.expires_at < now))
  ∧ (cleanup_expired s now none).1.db
      = s.db.filter (fun q => ! decide (q.2.expires_at < now))
  ∧ (cleanup_expired s now none).2
      = .ok ((s.mem.filter (fun q => decide (q.2.expires_at < now))).length
           + (s.db.filter (fun q => decide (q.2.expires_at < now))).length) := by
  have hmem : removeKeys s.mem
        ((s.mem.filter (fun q => decide (q.2.expires_at < now))).map Prod.fst)
      = s.mem.filter (fun q => ! decide (q.2.expires_at < now)) := by
    rw [removeKeys_eq_filter]
    apply List.filter_congr
    intro x hx
    rw [mem_keys_filter_of_nodup (fun q => decide (q.2.expires_at < now)) s.mem hnd x hx]
  have hlen : ((s.mem.filter (fun q => decide (q.2.expires_at < now))).map Prod.fst).length
      = (s.mem.filter (fun q => decide (q.2.expires_at < now))).length :=
    List.length_map _ _
  unfold cleanup_expired
  dsimp only
  rw [hmem, hlen]
  exact ⟨rfl, rfl, rfl⟩

theorem C8_cleanup_strict_amended_witness :
    (boundaryDemo.mem.map Prod.fst).Nodup
  ∧ ((cleanup_expired boundaryDemo 1 none).1.mem
      = boundaryDemo.mem.filter (fun q => ! decide (q.2.expires_at < 1))
    ∧ (cleanup_expired boundaryDemo 1 none).1.db
      = boundaryDemo.db.filter (fun q => ! decide (q.2.expires_at < 1))
    ∧ (cleanup_expired boundaryDemo 1 none).2
      = .ok ((boundaryDemo.mem.filter (fun q => decide (q.2.expires_at < 1))).length
           + (boundaryDemo.db.filter (fun q => decide (q.2.expires_at < 1))).length)) :=
  ⟨by decide, C8_cleanup_strict_amended boundaryDemo 1 (by decide)⟩

end TwoTierCache
